import Mathlib

set_option maxHeartbeats 1000000

namespace Pokedex

/-! Shallow embedding of the pokedex scraper/loader
(`pokedex_scraper.py`, `pokedex_db_converter.py`).  Python dictionaries
are modelled as association lists with at-most-one binding per key,
Python list indexing as `Option`-valued access, exceptions
(`KeyError`, `IndexError`, `AssertionError`, `ValueError`,
sqlite's `IntegrityError` / `InterfaceError`) as `Except String`. -/

/-- Association-list model of a Python `dict` with string keys: at most one
binding per key, kept in insertion order. -/
abbrev Dict (α : Type) : Type := List (String × α)

/-- Python dictionary lookup `d[k]`, as an `Option` (a `KeyError` is raised
by the caller on `none`). -/
def dictGet {α : Type} (d : Dict α) (k : String) : Option α :=
  match d.find? (fun p => p.1 == k) with
  | some p => some p.2
  | none => none

/-- Python `k in d.keys()`. -/
def hasKey {α : Type} (d : Dict α) (k : String) : Bool :=
  (dictGet d k).isSome

/-- Python assignment `d[k] = v`: overwrite in place if `k` is already
bound, otherwise append the new binding. -/
def dictInsert {α : Type} (d : Dict α) (k : String) (v : α) : Dict α :=
  if d.any (fun p => p.1 == k) then
    d.map (fun p => if p.1 == k then (k, v) else p)
  else d ++ [(k, v)]

/-- Python `d.update(e)`: insert every binding of `e` into `d`,
later bindings winning. -/
def dictUpdate {α : Type} (d e : Dict α) : Dict α :=
  e.foldl (fun acc p => dictInsert acc p.1 p.2) d

/-- The dictionary-merging loop at the top of `insert_evolutions_table`:
`evos = {}` followed by `for dic in evos_list: evos.update(dic)`. -/
def mergeDicts {α : Type} (ds : List (Dict α)) : Dict α :=
  ds.foldl dictUpdate []

/-! ### The lineage normalizer (`insert_evolutions_table`, converter lines 110-141) -/

/-- The `assert(key in ['first', 'middle', 'last'])` loop over `evos.keys()`. -/
def validKeys (evos : Dict (List String)) : Bool :=
  evos.all (fun p => p.1 == "first" || p.1 == "middle" || p.1 == "last")

/-- The first nested loop of the `'middle'` branch:
`for mid_evo in evos['middle']: for first_evo in evos['first']:
values.append((first_evo, mid_evo))`. -/
def crossFM (first middle : List String) : List (String × String) :=
  middle.flatMap (fun m => first.map (fun f => (f, m)))

/-- The second nested loop of the `'middle'` branch:
`for last_evo in evos['last']: for mid_evo in evos['middle']:
values.append((mid_evo, last_evo))`. -/
def crossML (middle last : List String) : List (String × String) :=
  last.flatMap (fun l => middle.map (fun m => (m, l)))

/-- The `elif 'last'` branch: `for last_evo in evos['last']:
for first_evo in evos['first']: values.append((first_evo, last_evo))`. -/
def crossFL (first last : List String) : List (String × String) :=
  last.flatMap (fun l => first.map (fun f => (f, l)))

/-- The edge-derivation part of `insert_evolutions_table` applied to the
merged dictionary `evos`: the key assertion, then the `'middle'` /
`elif 'last'` branching building `values`.  Faithful to Python evaluation
order: in the `'middle'` branch `evos['first']` is only evaluated when the
loop over `evos['middle']` has at least one iteration (so a missing
`'first'` goes unnoticed when `evos['middle']` is empty), while
`evos['last']` is always evaluated; in the `elif 'last'` branch
`evos['first']` is only evaluated when `evos['last']` is non-empty. -/
def normalizeEdges (evos : Dict (List String)) : Except String (List (String × String)) :=
  if validKeys evos = false then .error "AssertionError"
  else
    match dictGet evos "middle" with
    | some middle =>
      match (if middle.isEmpty then some [] else
              (dictGet evos "first").map (fun first => crossFM first middle)) with
      | none => .error "KeyError: first"
      | some fmEdges =>
        match dictGet evos "last" with
        | none => .error "KeyError: last"
        | some last => .ok (fmEdges ++ crossML middle last)
    | none =>
      match dictGet evos "last" with
      | some last =>
        if last.isEmpty then .ok []
        else
          match dictGet evos "first" with
          | none => .error "KeyError: first"
          | some first => .ok (crossFL first last)
      | none => .ok []

/-- Sequential `cur.executemany("INSERT ...")` into a table whose primary
key is given by `key`: each row is appended in turn, and a row whose key
collides with an already-present row raises `IntegrityError`. -/
def insertNewBy {α β : Type} [DecidableEq β] (key : α → β) :
    List α → List α → Except String (List α)
  | t, [] => .ok t
  | t, r :: rs =>
    if t.any (fun x => decide (key x = key r)) then .error "IntegrityError"
    else insertNewBy key (t ++ [r]) rs

/-- `executemany` into a table whose primary key is the whole row. -/
def insertNew {α : Type} [DecidableEq α] (t rs : List α) : Except String (List α) :=
  insertNewBy (fun x => x) t rs

/-! ### The loader's data model (`pokedex_db_converter.py`) -/

/-- One form sub-record of a scraped pokemon, as the loader reads it:
`form['form']`, `form['descriptions']`, `form['types']`, `form['gender']`,
`form['height']`, `form['weight']`, `form['category']`, and the optional
`form['abilities']` — `none` models the `'abilities'` key being absent
from the dictionary. -/
structure FormRec where
  form : String
  descriptions : List String
  types : List String
  gender : List String
  height : String
  weight : String
  category : String
  abilities : Option (List String)
deriving DecidableEq

/-- One pokemon record from the intermediate store, restricted to the
fields the loader reads: `pkmn['name']`, `pkmn['number']`,
`pkmn['formes']`, `pkmn['evolutions']`. -/
structure PkmnRec where
  name : String
  number : Int
  formes : List FormRec
  evolutions : List (Dict (List String))
deriving DecidableEq

/-- One ability record from the intermediate store:
`{'ability': ..., 'description': ...}`. -/
structure AbilityRec where
  ability : String
  description : String
deriving DecidableEq

/-- A `form_descriptions` / `form_abilities` row (all three columns form
the composite primary key). -/
abbrev Row3 : Type := String × String × String

/-- A `formes` row; primary key (pokemon, form). -/
structure FormeRow where
  pokemon : String
  form : String
  height : String
  weight : String
  category : String
  type_1 : String
  type_2 : Option String
  male : Nat
  female : Nat
deriving DecidableEq

/-- The six tables created by `create_sqlite_db`, each as its list of rows
in insertion order. -/
structure DBState where
  pokemon : List (String × Int)
  formes : List FormeRow
  form_descriptions : List Row3
  abilities : List (String × String)
  form_abilities : List Row3
  evolutions : List (String × String)
deriving DecidableEq

/-- The freshly created database: all tables empty. -/
def emptyDB : DBState := ⟨[], [], [], [], [], []⟩

/-- A value bound as a SQL statement parameter.  The sqlite3 driver
accepts only scalar parameter values (`None`/int/float/str/bytes);
binding any other Python object — such as the whole ability record
dictionary — raises `sqlite3.InterfaceError` before the statement runs. -/
inductive SqlValue : Type
  | str (v : String)
  | abilityRecord (r : AbilityRec)
deriving DecidableEq

/-- Parameter binding as performed by `cur.execute(sql, params)`. -/
def bindParam : SqlValue → Except String String
  | .str v => .ok v
  | .abilityRecord _ => .error "InterfaceError"

/-- `insert_abilities_table(cur, ability)` (converter lines 93-100).  The
source passes the whole record as the query parameter:
`cur.execute("SELECT * FROM abilities WHERE ability=?;", (ability,))`
with `ability` the record dictionary itself, so the binding step is
modelled on `SqlValue.abilityRecord ability`. -/
def insert_abilities_table (s : DBState) (a : AbilityRec) : Except String DBState :=
  match bindParam (.abilityRecord a) with
  | .error e => .error e
  | .ok key =>
    if (s.abilities.filter (fun r => r.1 == key)).length == 0 then
      match insertNewBy (fun r : String × String => r.1) s.abilities
          [(a.ability, a.description)] with
      | .error e => .error e
      | .ok t => .ok { s with abilities := t }
    else .ok s

/-- `insert_pokemon_table(cur, pkmn)` (converter lines 67-70). -/
def insert_pokemon_table (s : DBState) (p : PkmnRec) : Except String DBState :=
  match insertNewBy (fun r : String × Int => r.1) s.pokemon [(p.name, p.number)] with
  | .error e => .error e
  | .ok t => .ok { s with pokemon := t }

/-- The row built for one form by `insert_formes_table`:
`type1 = form['types'][0]` (an `IndexError` if the type list is empty),
`type2 = None if len(form['types']) < 2 else form['types'][1]`,
`male = 1 if 'Male' in form['gender'] else 0` and likewise `female`. -/
def formeRow (name : String) (fr : FormRec) : Except String FormeRow :=
  match fr.types[0]? with
  | none => .error "IndexError"
  | some t1 =>
    .ok ⟨name, fr.form, fr.height, fr.weight, fr.category, t1, fr.types[1]?,
         (if "Male" ∈ fr.gender then 1 else 0), (if "Female" ∈ fr.gender then 1 else 0)⟩

/-- `insert_formes_table(cur, pkmn)` (converter lines 72-80): one insert
per form, primary key (pokemon, form). -/
def insert_formes_table (s : DBState) (p : PkmnRec) : Except String DBState :=
  p.formes.foldlM (fun st fr =>
    match formeRow p.name fr with
    | .error e => .error e
    | .ok row =>
      match insertNewBy (fun r : FormeRow => (r.pokemon, r.form)) st.formes [row] with
      | .error e => .error e
      | .ok t => .ok { st with formes := t }) s

/-- The `values` list built for one form by
`insert_form_descriptions_table` (converter lines 82-91):
`desc1 = form['descriptions'][0]`, `desc2 = form['descriptions'][1]`
(each an `IndexError` when missing), and the second row is appended only
when `desc1 != desc2`. -/
def descRowsForForm (name : String) (fr : FormRec) : Except String (List Row3) :=
  match fr.descriptions[0]? with
  | none => .error "IndexError"
  | some d1 =>
    match fr.descriptions[1]? with
    | none => .error "IndexError"
    | some d2 =>
      .ok (if d1 = d2 then [(name, fr.form, d1)]
           else [(name, fr.form, d1), (name, fr.form, d2)])

/-- `insert_form_descriptions_table(cur, pkmn)`: per form, build the row
list and `executemany` it into `form_descriptions` (whole-row primary
key). -/
def insert_form_descriptions_table (s : DBState) (p : PkmnRec) : Except String DBState :=
  p.formes.foldlM (fun st fr =>
    match descRowsForForm p.name fr with
    | .error e => .error e
    | .ok rows =>
      match insertNew st.form_descriptions rows with
      | .error e => .error e
      | .ok t => .ok { st with form_descriptions := t }) s

/-- The rows contributed by one form to `insert_form_abilities_table`
(converter lines 102-108): nothing when the `'abilities'` key is absent
(`if 'abilities' in form.keys()`), else one row per ability. -/
def form_ability_rows (name : String) (fr : FormRec) : List Row3 :=
  match fr.abilities with
  | none => []
  | some abs => abs.map (fun a => (name, fr.form, a))

/-- `insert_form_abilities_table(cur, pkmn)`: collect the rows over all
forms, then `executemany` into `form_abilities` (whole-row primary key). -/
def insert_form_abilities_table (s : DBState) (p : PkmnRec) : Except String DBState :=
  match insertNew s.form_abilities (p.formes.flatMap (form_ability_rows p.name)) with
  | .error e => .error e
  | .ok t => .ok { s with form_abilities := t }

/-- `insert_evolutions_table(cur, pkmn)` (converter lines 110-141): return
unchanged if any `evolutions` row already references this pokemon as
predecessor or successor; otherwise merge `pkmn['evolutions']`, derive the
edge list, and `executemany` it (primary key = whole row). -/
def insert_evolutions_table (s : DBState) (p : PkmnRec) : Except String DBState :=
  if s.evolutions.any (fun r => r.1 == p.name || r.2 == p.name) then .ok s
  else
    match normalizeEdges (mergeDicts p.evolutions) with
    | .error e => .error e
    | .ok es =>
      match insertNew s.evolutions es with
      | .error e => .error e
      | .ok t => .ok { s with evolutions := t }

/-- The per-pokemon body of the entity loop of `fill_sqlite_db`
(converter lines 156-161), in source order. -/
def insertPkmnAll (s : DBState) (p : PkmnRec) : Except String DBState := do
  let s ← insert_pokemon_table s p
  let s ← insert_formes_table s p
  let s ← insert_form_descriptions_table s p
  let s ← insert_form_abilities_table s p
  insert_evolutions_table s p

/-- `fill_sqlite_db` (converter lines 145-166): one pass over the ability
collection, then one pass over the pokemon collection, starting from the
freshly created database. -/
def fill_sqlite_db (abilities : List AbilityRec) (pkmns : List PkmnRec) :
    Except String DBState := do
  let s1 ← abilities.foldlM insert_abilities_table emptyDB
  pkmns.foldlM insertPkmnAll s1

/-! ### The scraper (`pokedex_scraper.py`) -/

/-- Python `s.strip(" \n")`: remove leading and trailing spaces and
newline characters. -/
def pyStrip (s : String) : String :=
  let front := s.data.dropWhile (fun c => c == ' ' || c == '\n')
  String.mk ((front.reverse.dropWhile (fun c => c == ' ' || c == '\n')).reverse)

/-- Whether the first list is an initial segment of the second. -/
def listStart : List Char → List Char → Bool
  | [], _ => true
  | _ :: _, [] => false
  | a :: xs, b :: ys => a == b && listStart xs ys

/-- Whether `sub` occurs as a contiguous segment of the list. -/
def occursIn (sub : List Char) : List Char → Bool
  | [] => listStart sub []
  | c :: rest => listStart sub (c :: rest) || occursIn sub rest

/-- Python `s.find(sub) != -1`: the needle occurs as a substring. -/
def containsSub (s sub : String) : Bool :=
  occursIn sub.data s.data

/-- Python `s.lower()`, character by character. -/
def pyLower (s : String) : String :=
  String.mk (s.data.map Char.toLower)

/-- One `attribute-value` markup node handed to `__scrape_misc_info`: its
text content, and the class-attribute list of each of its `icon` children
(`values[2].find_all(class_="icon")`). -/
structure ValueNode where
  text : String
  icons : List (List String)
deriving DecidableEq

/-- Gender classification of one icon (scraper lines 257-261):
inspect `icon.attrs["class"][1]` (an `IndexError` when the icon carries
fewer than two classes); `"Female"` when that second class contains
`"female"`, `"Male"` otherwise. -/
def classifyIcon (cls : List String) : Except String String :=
  match cls[1]? with
  | none => .error "IndexError"
  | some c => .ok (if containsSub c "female" then "Female" else "Male")

/-- The icon loop of the gender block (scraper lines 257-261): classify
each icon in order, an exception aborting the whole page. -/
def classifyIcons : List (List String) → Except String (List String)
  | [] => .ok []
  | cls :: rest =>
    match classifyIcon cls with
    | .error e => .error e
    | .ok g =>
      match classifyIcons rest with
      | .error e => .error e
      | .ok gs => .ok (g :: gs)

/-- The gender block of `__scrape_misc_info` (scraper lines 253-263): with
icon markup present, one classification per icon in order; with no icon
markup, the single stripped text label. -/
def scrapeGenders (node : ValueNode) : Except String (List String) :=
  if node.icons.isEmpty then .ok [pyStrip node.text]
  else classifyIcons node.icons

/-- A value stored in a form's misc-info dictionary: plain text for
height, weight and category; a list of strings for gender and
abilities. -/
inductive MiscVal : Type
  | txt (v : String)
  | lst (v : List String)
deriving DecidableEq

/-- The body of the per-form loop of `__scrape_misc_info` (scraper lines
242-274), given one form's `attribute-title` texts and `attribute-value`
nodes: height and weight from entries 0 and 1, the gender list from
`values[2]`, the category from `values[3]` (an `IndexError` when any of
these is missing), and — only when both `titles` and `values` have more
than four entries — the stripped texts of `values[4:]` keyed by
`titles[4]`; otherwise no abilities entry is created at all. -/
def scrape_misc_info_form (titles : List String) (values : List ValueNode) :
    Except String (Dict MiscVal) :=
  match titles[0]?, values[0]?, titles[1]?, values[1]? with
  | some t0, some v0, some t1, some v1 =>
    let d := dictInsert (dictInsert [] (pyLower t0) (.txt v0.text)) (pyLower t1) (.txt v1.text)
    match values[2]? with
    | none => .error "IndexError"
    | some v2 =>
      match scrapeGenders v2 with
      | .error e => .error e
      | .ok genders =>
        match titles[2]?, titles[3]?, values[3]? with
        | some t2, some t3, some v3 =>
          let d := dictInsert d (pyLower t2) (.lst genders)
          let d := dictInsert d (pyLower t3) (.txt v3.text)
          if 4 < titles.length ∧ 4 < values.length then
            match titles[4]? with
            | none => .error "IndexError"
            | some t4 =>
              .ok (dictInsert d (pyLower t4)
                (.lst ((values.drop 4).map (fun v => pyStrip v.text))))
          else .ok d
        | _, _, _ => .error "IndexError"
  | _, _, _, _ => .error "IndexError"

/-- The `'abilities'` entry of a per-form extraction result, with a
sentinel on an extraction error — so `= none` certifies both that the
extraction succeeded and that it produced no abilities entry. -/
def abilitiesEntry (r : Except String (Dict MiscVal)) : Option MiscVal :=
  match r with
  | .error _ => some (.txt "ERROR")
  | .ok d => dictGet d "abilities"

/-- `__scrape_images` (scraper lines 147-167), with each `img` tag already
reduced to its `src` string: `for image, form in zip(images_tag, formes):
images[form] = image["src"]` — a positional zip that silently stops at the
shorter of the two lists. -/
def scrape_images (imagesTag : List String) (formes : List String) : Dict String :=
  (imagesTag.zip formes).foldl (fun d p => dictInsert d p.2 p.1) []

/-- `__scrape_descriptions` (scraper lines 169-193), with each
`version-descriptions` tag already reduced to its list of paragraph
strings: the same positional zip against the form-label list. -/
def scrape_descriptions (descriptionsTag : List (List String)) (formes : List String) :
    Dict (List String) :=
  (descriptionsTag.zip formes).foldl (fun d p => dictInsert d p.2 p.1) []

/-- The form-assembly loop of `__scrape_pokemon` (scraper lines 92-100),
restricted to the image and description extractors: for each declared form
label look up `images[form]` and `descriptions[form]`, a `KeyError` when a
form label is missing from an extractor's dictionary. -/
def assembleFormes (images : Dict String) (descriptions : Dict (List String)) :
    List String → Except String (List (String × String × List String))
  | [] => .ok []
  | f :: fs =>
    match dictGet images f with
    | none => .error "KeyError"
    | some img =>
      match dictGet descriptions f with
      | none => .error "KeyError"
      | some ds =>
        match assembleFormes images descriptions fs with
        | .error e => .error e
        | .ok out => .ok ((f, img, ds) :: out)

/-- `__scrape_pokemon` restricted to the image and description extractors
followed by per-form assembly (the type and misc-info extractors follow
the same zip-then-lookup shape). -/
def scrape_pokemon_formes (formes : List String) (imagesTag : List String)
    (descriptionsTag : List (List String)) :
    Except String (List (String × String × List String)) :=
  assembleFormes (scrape_images imagesTag formes)
    (scrape_descriptions descriptionsTag formes) formes

/-- The fixed URL path accepted by the scraper (scraper line 36). -/
def pokedexPathStart : String := "https://www.pokemon.com/us/pokedex/"

/-- Python `s.startswith(pre)`: the code points of `pre` form an initial
segment of those of `s`. -/
def pyStartsWith (s pre : String) : Bool :=
  decide (pre.data = s.data.take pre.data.length)

/-- `PokedexScraper.__init__` (scraper lines 22-48): validate the URL
shape, raising `ValueError` when the check fails, and only then perform
the page fetch (`requests.get`), whose outcome the `fetch` oracle
supplies. -/
def pokedexScraperInit (pokemon_url : String) (fetch : Unit → Except String String) :
    Except String String :=
  if pyStartsWith pokemon_url pokedexPathStart = false then .error "ValueError"
  else fetch ()

lemma mem_crossFM {first middle : List String} {p : String × String} :
    p ∈ crossFM first middle ↔ (p.1 ∈ first ∧ p.2 ∈ middle) := by
  constructor
  · intro h
    rcases List.mem_flatMap.mp h with ⟨m, hm, hp⟩
    rcases List.mem_map.mp hp with ⟨f, hf, he⟩
    subst he
    exact ⟨hf, hm⟩
  · rintro ⟨h1, h2⟩
    exact List.mem_flatMap.mpr ⟨p.2, h2, List.mem_map.mpr ⟨p.1, h1, rfl⟩⟩

lemma mem_crossML {middle last : List String} {p : String × String} :
    p ∈ crossML middle last ↔ (p.1 ∈ middle ∧ p.2 ∈ last) := by
  constructor
  · intro h
    rcases List.mem_flatMap.mp h with ⟨l, hl, hp⟩
    rcases List.mem_map.mp hp with ⟨m, hm, he⟩
    subst he
    exact ⟨hm, hl⟩
  · rintro ⟨h1, h2⟩
    exact List.mem_flatMap.mpr ⟨p.2, h2, List.mem_map.mpr ⟨p.1, h1, rfl⟩⟩

lemma mem_crossFL {first last : List String} {p : String × String} :
    p ∈ crossFL first last ↔ (p.1 ∈ first ∧ p.2 ∈ last) := by
  constructor
  · intro h
    rcases List.mem_flatMap.mp h with ⟨l, hl, hp⟩
    rcases List.mem_map.mp hp with ⟨f, hf, he⟩
    subst he
    exact ⟨hf, hl⟩
  · rintro ⟨h1, h2⟩
    exact List.mem_flatMap.mpr ⟨p.2, h2, List.mem_map.mpr ⟨p.1, h1, rfl⟩⟩

/-- C1: for every lineage taxonomy the normalizer produces exactly the
chained cross-product edge set — with `"middle"` absent and `"last"`
present the edges are all (f, l) pairs, with `"middle"` present they are
all (f, m) pairs plus all (m, l) pairs and nothing else (in particular no
first-to-last pair beyond those), and with only `"first"` present the edge
set is empty. -/
theorem evolution_edge_cross_product (evos : Dict (List String))
    (first middle last : List String) (hv : validKeys evos = true) :
    ((dictGet evos "first" = some first ∧ dictGet evos "middle" = none ∧
      dictGet evos "last" = some last) →
      ∃ es, normalizeEdges evos = .ok es ∧
        ∀ p : String × String, p ∈ es ↔ (p.1 ∈ first ∧ p.2 ∈ last)) ∧
    ((dictGet evos "first" = some first ∧ dictGet evos "middle" = some middle ∧
      dictGet evos "last" = some last) →
      ∃ es, normalizeEdges evos = .ok es ∧
        ∀ p : String × String, p ∈ es ↔
          ((p.1 ∈ first ∧ p.2 ∈ middle) ∨ (p.1 ∈ middle ∧ p.2 ∈ last))) ∧
    ((dictGet evos "first" = some first ∧ dictGet evos "middle" = none ∧
      dictGet evos "last" = none) → normalizeEdges evos = .ok []) := by
  refine ⟨?_, ?_, ?_⟩
  · rintro ⟨hf, hm, hl⟩
    rcases eq_or_ne last [] with h | h
    · subst h
      refine ⟨[], ?_, by simp⟩
      simp [normalizeEdges, hv, hm, hl]
    · refine ⟨crossFL first last, ?_, fun p => mem_crossFL⟩
      simp [normalizeEdges, hv, hm, hl, hf, h]
  · rintro ⟨hf, hm, hl⟩
    rcases eq_or_ne middle [] with h | h
    · subst h
      refine ⟨crossML [] last, ?_, ?_⟩
      · simp [normalizeEdges, hv, hm, hl]
      · intro p
        simp [crossML]
    · refine ⟨crossFM first middle ++ crossML middle last, ?_, ?_⟩
      · simp [normalizeEdges, hv, hm, hl, hf, h]
      · intro p
        simp only [List.mem_append, mem_crossFM, mem_crossML]
  · rintro ⟨hf, hm, hl⟩
    simp [normalizeEdges, hv, hm, hl]

/-- Witness for C1 at the three concrete taxonomies named by the claim. -/
theorem evolution_edge_cross_product_witness :
    (∃ es, normalizeEdges [("first", ["A"]), ("last", ["B"])] = .ok es ∧
      ∀ p : String × String, p ∈ es ↔ (p.1 ∈ ["A"] ∧ p.2 ∈ ["B"])) ∧
    (∃ es, normalizeEdges [("first", ["A"]), ("middle", ["B", "C"]), ("last", ["D"])] = .ok es ∧
      ∀ p : String × String, p ∈ es ↔
        ((p.1 ∈ ["A"] ∧ p.2 ∈ ["B", "C"]) ∨ (p.1 ∈ ["B", "C"] ∧ p.2 ∈ ["D"]))) ∧
    normalizeEdges [("first", ["A", "B"])] = .ok [] :=
  ⟨(evolution_edge_cross_product _ ["A"] [] ["B"] (by rfl)).1 ⟨rfl, rfl, rfl⟩,
   (evolution_edge_cross_product _ ["A"] ["B", "C"] ["D"] (by rfl)).2.1 ⟨rfl, rfl, rfl⟩,
   (evolution_edge_cross_product _ ["A", "B"] [] [] (by rfl)).2.2 ⟨rfl, rfl, rfl⟩⟩

/-- C6 counterexample: with `"middle"` present but bound to the empty list,
`"first"` absent and `"last"` present, the normalizer raises no error at
all — the loop over `evos['middle']` performs zero iterations so
`evos['first']` is never evaluated — and the empty edge list results,
although the claim demands a fatal validation error whenever `"middle"` is
present and `"first"` is absent. -/
theorem lineage_missing_first_undetected :
    normalizeEdges [("middle", ([] : List String)), ("last", ["C"])] = .ok [] := by rfl

/-- C6 (amended): the normalizer raises a fatal error whenever a position
key outside first/middle/last appears (the assertion), whenever `"middle"`
is present but `"last"` is absent, and whenever `"middle"` is present and
non-empty but `"first"` is absent; but when `"middle"` is present bound to
the empty list and `"last"` is present, a missing `"first"` goes undetected
and the empty edge set is returned without error. -/
theorem lineage_validation_errors (evos : Dict (List String)) (middle : List String) :
    (validKeys evos = false → normalizeEdges evos = .error "AssertionError") ∧
    (validKeys evos = true → dictGet evos "middle" = some middle →
      dictGet evos "last" = none → ∃ m, normalizeEdges evos = .error m) ∧
    (validKeys evos = true → dictGet evos "middle" = some middle → middle ≠ [] →
      dictGet evos "first" = none → normalizeEdges evos = .error "KeyError: first") ∧
    (validKeys evos = true → dictGet evos "middle" = some [] →
      dictGet evos "first" = none → (dictGet evos "last").isSome = true →
      normalizeEdges evos = .ok []) := by
  refine ⟨?_, ?_, ?_, ?_⟩
  · intro h
    simp [normalizeEdges, h]
  · intro hv hm hl
    rcases eq_or_ne middle [] with h | h
    · subst h
      exact ⟨"KeyError: last", by simp [normalizeEdges, hv, hm, hl]⟩
    · rcases hfc : dictGet evos "first" with _ | first
      · exact ⟨"KeyError: first", by simp [normalizeEdges, hv, hm, hl, hfc, h]⟩
      · exact ⟨"KeyError: last", by simp [normalizeEdges, hv, hm, hl, hfc, h]⟩
  · intro hv hm h hf
    simp [normalizeEdges, hv, hm, h, hf]
  · intro hv hm hf hl
    rcases ho : dictGet evos "last" with _ | last
    · rw [ho] at hl
      simp at hl
    · simp [normalizeEdges, hv, hm, ho, crossML]

/-- Witness for C6 (amended), discharging each branch at a concrete
taxonomy. -/
theorem lineage_validation_errors_witness :
    normalizeEdges [("weird", ["B"])] = .error "AssertionError" ∧
    (∃ m, normalizeEdges [("middle", ["B"])] = .error m) ∧
    normalizeEdges [("middle", ["B"]), ("last", ["C"])] = .error "KeyError: first" ∧
    normalizeEdges [("middle", ([] : List String)), ("last", ["D"])] = .ok [] :=
  ⟨(lineage_validation_errors [("weird", ["B"])] ["B"]).1 rfl,
   (lineage_validation_errors [("middle", ["B"])] ["B"]).2.1 rfl rfl rfl,
   (lineage_validation_errors [("middle", ["B"]), ("last", ["C"])] ["B"]).2.2.1 rfl rfl
     (by decide) rfl,
   (lineage_validation_errors [("middle", ([] : List String)), ("last", ["D"])] []).2.2.2 rfl rfl
     rfl rfl⟩


lemma insertNewBy_ok_append {α β : Type} [DecidableEq β] (key : α → β) :
    ∀ (rs t t' : List α), insertNewBy key t rs = .ok t' → t' = t ++ rs := by
  intro rs
  induction rs with
  | nil =>
    intro t t' h
    cases h
    simp
  | cons r rs ih =>
    intro t t' h
    simp only [insertNewBy] at h
    split at h
    · cases h
    · simpa using ih (t ++ [r]) t' h

lemma insertNew_ok_nodup {α : Type} [DecidableEq α] :
    ∀ (rs t t' : List α), insertNew t rs = .ok t' → t.Nodup → t'.Nodup := by
  intro rs
  induction rs with
  | nil =>
    intro t t' h hn
    cases h
    exact hn
  | cons r rs ih =>
    intro t t' h hn
    simp only [insertNew, insertNewBy] at h
    split at h
    · cases h
    · next hc =>
      refine ih (t ++ [r]) t' h ?_
      have hr : r ∉ t := by
        intro hmem
        exact hc (List.any_eq_true.mpr ⟨r, hmem, by simp⟩)
      simp [List.nodup_append, hn, hr]

lemma insertNew_ok_of_disjoint {α : Type} [DecidableEq α] :
    ∀ (rs t : List α), rs.Nodup → (∀ r ∈ rs, r ∉ t) → insertNew t rs = .ok (t ++ rs) := by
  intro rs
  induction rs with
  | nil =>
    intro t _ _
    simp [insertNew, insertNewBy]
  | cons r rs ih =>
    intro t hn hd
    have hc : t.any (fun x => decide (x = r)) = false := by
      simp only [List.any_eq_false, decide_eq_true_eq]
      intro x hx he
      subst he
      exact hd x (by simp) hx
    have hn' : rs.Nodup := (List.nodup_cons.mp hn).2
    have hr : r ∉ rs := (List.nodup_cons.mp hn).1
    have hd' : ∀ x ∈ rs, x ∉ t ++ [r] := by
      intro x hx
      simp only [List.mem_append, List.mem_singleton]
      rintro (hxt | hxr)
      · exact hd x (List.mem_cons_of_mem r hx) hxt
      · subst hxr
        exact hr hx
    have := ih (t ++ [r]) hn' hd'
    simp only [insertNew, insertNewBy, hc]
    simpa using this

lemma key_valid_of_get {evos : Dict (List String)} {k : String} {v : List String}
    (hv : validKeys evos = true) (h : dictGet evos k = some v) :
    k = "first" ∨ k = "middle" ∨ k = "last" := by
  unfold dictGet at h
  rcases hf : evos.find? (fun p => p.1 == k) with _ | pr
  · rw [hf] at h
    cases h
  · rw [hf] at h
    cases h
    have hpk := List.find?_some hf
    have hmem : pr ∈ evos := List.mem_of_find?_eq_some hf
    have hall := List.all_eq_true.mp hv pr hmem
    have hk : pr.1 = k := by simpa using hpk
    have hd : (pr.1 = "first" ∨ pr.1 = "middle") ∨ pr.1 = "last" := by simpa using hall
    rw [← hk]
    tauto

lemma crossML_nil_left (last : List String) : crossML [] last = [] := by
  simp [crossML]

/-- If the derived edge list is non-empty, every name occupying any
position of the taxonomy occurs in some edge (as predecessor or
successor). -/
lemma member_mem_edges {evos : Dict (List String)} {es : List (String × String)}
    {n : String} (h : normalizeEdges evos = .ok es) (hne : es ≠ [])
    (hm : ∃ k v, dictGet evos k = some v ∧ n ∈ v) :
    ∃ e ∈ es, e.1 = n ∨ e.2 = n := by
  rcases hm with ⟨k, v, hkv, hnv⟩
  have hv : validKeys evos = true := by
    rcases hvc : validKeys evos with _ | _
    · rw [normalizeEdges, hvc] at h
      simp at h
    · rfl
  have hkcases := key_valid_of_get hv hkv
  rcases hmid : dictGet evos "middle" with _ | middle
  · -- middle absent
    rcases hlast : dictGet evos "last" with _ | last
    · have hrun : normalizeEdges evos = .ok [] := by
        simp [normalizeEdges, hv, hmid, hlast]
      rw [hrun] at h
      exact absurd (Except.ok.inj h).symm hne
    · rcases eq_or_ne last [] with hle | hle
    -- last bound to the empty list: empty edge set, contradiction
      · subst hle
        have hrun : normalizeEdges evos = .ok [] := by
          simp [normalizeEdges, hv, hmid, hlast]
        rw [hrun] at h
        exact absurd (Except.ok.inj h).symm hne
      · rcases hfst : dictGet evos "first" with _ | first
        · have hrun : normalizeEdges evos = .error "KeyError: first" := by
            simp [normalizeEdges, hv, hmid, hlast, hfst, hle]
          rw [hrun] at h
          exact Except.noConfusion h
        · have hrun : normalizeEdges evos = .ok (crossFL first last) := by
            simp [normalizeEdges, hv, hmid, hlast, hfst, hle]
          rw [hrun] at h
          have hes : es = crossFL first last := (Except.ok.inj h).symm
          subst hes
          have hfirst_ne : first ≠ [] := by
            intro hemp
            apply hne
            simp [crossFL, hemp]
          rcases List.exists_mem_of_ne_nil first hfirst_ne with ⟨f0, hf0⟩
          rcases List.exists_mem_of_ne_nil last hle with ⟨l0, hl0⟩
          rcases hkcases with hk | hk | hk
          all_goals subst hk
          · rw [hkv] at hfst
            cases hfst
            exact ⟨(n, l0), mem_crossFL.mpr ⟨hnv, hl0⟩, Or.inl rfl⟩
          · rw [hkv] at hmid
            cases hmid
          · rw [hkv] at hlast
            cases hlast
            exact ⟨(f0, n), mem_crossFL.mpr ⟨hf0, hnv⟩, Or.inr rfl⟩
  · -- middle present
    rcases eq_or_ne middle [] with hme | hme
    · subst hme
      rcases hlast : dictGet evos "last" with _ | last
      · have hrun : normalizeEdges evos = .error "KeyError: last" := by
          simp [normalizeEdges, hv, hmid, hlast]
        rw [hrun] at h
        exact Except.noConfusion h
      · have hrun : normalizeEdges evos = .ok [] := by
          simp [normalizeEdges, hv, hmid, hlast, crossML]
        rw [hrun] at h
        exact absurd (Except.ok.inj h).symm hne
    · rcases hfst : dictGet evos "first" with _ | first
      · have hrun : normalizeEdges evos = .error "KeyError: first" := by
          simp [normalizeEdges, hv, hmid, hfst, hme]
        rw [hrun] at h
        exact Except.noConfusion h
      · rcases hlast : dictGet evos "last" with _ | last
        · have hrun : normalizeEdges evos = .error "KeyError: last" := by
            simp [normalizeEdges, hv, hmid, hfst, hlast, hme]
          rw [hrun] at h
          exact Except.noConfusion h
        · have hrun : normalizeEdges evos =
              .ok (crossFM first middle ++ crossML middle last) := by
            simp [normalizeEdges, hv, hmid, hfst, hlast, hme]
          rw [hrun] at h
          have hes : es = crossFM first middle ++ crossML middle last := (Except.ok.inj h).symm
          subst hes
          rcases List.exists_mem_of_ne_nil middle hme with ⟨m0, hm0⟩
          rcases hkcases with hk | hk | hk
          all_goals subst hk
          · rw [hkv] at hfst
            cases hfst
            exact ⟨(n, m0), List.mem_append_left _ (mem_crossFM.mpr ⟨hnv, hm0⟩), Or.inl rfl⟩
          · have hvm : v = middle := by
              rw [hkv] at hmid
              exact Option.some.inj hmid
            rw [hvm] at hnv
            rcases eq_or_ne (crossFM first middle) [] with hFMe | hFMne
            · have hlast_ne : last ≠ [] := by
                intro hemp
                apply hne
                simp [hFMe, hemp, crossML]
              rcases List.exists_mem_of_ne_nil last hlast_ne with ⟨l0, hl0⟩
              exact ⟨(n, l0), List.mem_append_right _ (mem_crossML.mpr ⟨hnv, hl0⟩), Or.inl rfl⟩
            · rcases List.exists_mem_of_ne_nil _ hFMne with ⟨e0, he0⟩
              rcases mem_crossFM.mp he0 with ⟨hf0, _⟩
              exact ⟨(e0.1, n), List.mem_append_left _ (mem_crossFM.mpr ⟨hf0, hnv⟩), Or.inr rfl⟩
          · rw [hkv] at hlast
            cases hlast
            exact ⟨(m0, n), List.mem_append_right _ (mem_crossML.mpr ⟨hm0, hnv⟩), Or.inr rfl⟩

/-- C2: if any `evolutions` row already references the pokemon as
predecessor or successor, `insert_evolutions_table` inserts nothing and
returns the table unchanged; consequently, loading the same lineage from
two member pokemon in sequence (starting with an empty `evolutions`
table) makes the second call a no-op, and every derived edge is present
at most once afterwards. -/
theorem evolution_insert_idempotent (s : DBState) (p : PkmnRec)
    (s0 s1 : DBState) (p1 p2 : PkmnRec) :
    (s.evolutions.any (fun r => r.1 == p.name || r.2 == p.name) = true →
      insert_evolutions_table s p = .ok s) ∧
    (s0.evolutions = [] → p1.evolutions = p2.evolutions →
      (∃ k v, dictGet (mergeDicts p2.evolutions) k = some v ∧ p2.name ∈ v) →
      insert_evolutions_table s0 p1 = .ok s1 →
      insert_evolutions_table s1 p2 = .ok s1 ∧ s1.evolutions.Nodup) := by
  constructor
  · intro hany
    simp [insert_evolutions_table, hany]
  · intro h0 hpe hmem hins
    unfold insert_evolutions_table at hins
    rw [h0] at hins
    simp only [List.any_nil, Bool.false_eq_true, if_false] at hins
    rcases hN : normalizeEdges (mergeDicts p1.evolutions) with e | es
    · simp only [hN] at hins
      cases hins
    · simp only [hN] at hins
      rcases hI : insertNew ([] : List (String × String)) es with e | t
      · simp only [hI] at hins
        cases hins
      · simp only [hI] at hins
        cases hins
        have ht : es = t := by
          have := insertNewBy_ok_append (fun x => x) es [] t hI
          simpa using this.symm
        subst ht
        have hnd : es.Nodup := insertNew_ok_nodup es [] es hI List.nodup_nil
        constructor
        · rcases eq_or_ne es [] with hes | hes
          · subst hes
            simp [insert_evolutions_table, ← hpe, hN, insertNew, insertNewBy]
          · have hN2 : normalizeEdges (mergeDicts p2.evolutions) = .ok es := by
              rw [← hpe]
              exact hN
            rcases member_mem_edges hN2 hes hmem with ⟨e0, he0, hrefs⟩
            have hany : es.any (fun r => r.1 == p2.name || r.2 == p2.name) = true := by
              refine List.any_eq_true.mpr ⟨e0, he0, ?_⟩
              rcases hrefs with hl | hr
              · simp [hl]
              · simp [hr]
            have hcond : ({ s0 with evolutions := es } : DBState).evolutions.any
                (fun r => r.1 == p2.name || r.2 == p2.name) = true := hany
            simp [insert_evolutions_table, hcond]
        · exact hnd

/-- Witness for C2 at a concrete two-stage lineage loaded from both of its
member pokemon. -/
theorem evolution_insert_idempotent_witness :
    insert_evolutions_table { emptyDB with evolutions := [("A", "B")] }
        ⟨"A", 1, [], [[("first", ["A"])], [("last", ["B"])]]⟩ =
      .ok { emptyDB with evolutions := [("A", "B")] } ∧
    (insert_evolutions_table { emptyDB with evolutions := [("A", "B")] }
        ⟨"B", 2, [], [[("first", ["A"])], [("last", ["B"])]]⟩ =
      .ok { emptyDB with evolutions := [("A", "B")] } ∧
     ({ emptyDB with evolutions := [("A", "B")] } : DBState).evolutions.Nodup) :=
  ⟨(evolution_insert_idempotent { emptyDB with evolutions := [("A", "B")] }
      ⟨"A", 1, [], [[("first", ["A"])], [("last", ["B"])]]⟩ emptyDB
      { emptyDB with evolutions := [("A", "B")] }
      ⟨"A", 1, [], [[("first", ["A"])], [("last", ["B"])]]⟩
      ⟨"B", 2, [], [[("first", ["A"])], [("last", ["B"])]]⟩).1 (by rfl),
   (evolution_insert_idempotent emptyDB
      ⟨"A", 1, [], [[("first", ["A"])], [("last", ["B"])]]⟩ emptyDB
      { emptyDB with evolutions := [("A", "B")] }
      ⟨"A", 1, [], [[("first", ["A"])], [("last", ["B"])]]⟩
      ⟨"B", 2, [], [[("first", ["A"])], [("last", ["B"])]]⟩).2 rfl rfl
      ⟨"last", ["B"], rfl, by simp⟩ (by rfl)⟩

/-- C3 (code bug): `insert_abilities_table` binds the whole ability record
dictionary as the parameter of its dedup query —
`cur.execute("SELECT * FROM abilities WHERE ability=?;", (ability,))`
instead of `(ability['ability'],)` — so every call raises
`sqlite3.InterfaceError` before any check or insert runs, and the
documented name-based first-seen-wins insert never executes. -/
theorem ability_insert_raises_interface_error (s : DBState) (a : AbilityRec) :
    insert_abilities_table s a = .error "InterfaceError" := rfl

/-- C4: for a form carrying exactly two description strings, the loader
derives exactly one `form_descriptions` row when they are equal and
exactly two rows when they differ; the derived rows are pairwise distinct,
so inserting them cannot violate the composite
(pokemon, form, description) primary key. -/
theorem form_description_collapse (name : String) (fr : FormRec) (d1 d2 : String)
    (h : fr.descriptions = [d1, d2]) :
    ∃ rows, descRowsForForm name fr = .ok rows ∧
      (d1 = d2 → rows = [(name, fr.form, d1)]) ∧
      (d1 ≠ d2 → rows = [(name, fr.form, d1), (name, fr.form, d2)]) ∧
      rows.Nodup ∧
      ∀ t : List Row3, (∀ r ∈ rows, r ∉ t) → insertNew t rows = .ok (t ++ rows) := by
  rcases eq_or_ne d1 d2 with he | he
  · subst he
    refine ⟨[(name, fr.form, d1)], ?_, fun _ => rfl, fun hc => absurd rfl hc, by simp, ?_⟩
    · simp [descRowsForForm, h]
    · intro t ht
      exact insertNew_ok_of_disjoint _ t (by simp) ht
  · refine ⟨[(name, fr.form, d1), (name, fr.form, d2)], ?_, fun hc => absurd hc he,
      fun _ => rfl, ?_, ?_⟩
    · simp [descRowsForForm, h, he]
    · simp [he]
    · intro t ht
      exact insertNew_ok_of_disjoint _ t (by simp [he]) ht

/-- Witness for C4 at a form whose two descriptions are identical. -/
theorem form_description_collapse_witness :
    ∃ rows, descRowsForForm "Eevee"
        ⟨"Eevee", ["same", "same"], ["Normal"], ["Male"], "", "", "", none⟩ = .ok rows ∧
      ("same" = "same" → rows = [("Eevee", "Eevee", "same")]) ∧
      ("same" ≠ "same" → rows = [("Eevee", "Eevee", "same"), ("Eevee", "Eevee", "same")]) ∧
      rows.Nodup ∧
      ∀ t : List Row3, (∀ r ∈ rows, r ∉ t) → insertNew t rows = .ok (t ++ rows) :=
  form_description_collapse "Eevee"
    ⟨"Eevee", ["same", "same"], ["Normal"], ["Male"], "", "", "", none⟩ "same" "same" rfl

lemma find?_overwrite_ne {α : Type} (k k' : String) (v : α) (hne : k' ≠ k) :
    ∀ d : Dict α, (d.map (fun p => if p.1 == k then (k, v) else p)).find?
        (fun p => p.1 == k') = d.find? (fun p => p.1 == k') := by
  intro d
  induction d with
  | nil => rfl
  | cons p d ih =>
    simp only [List.map_cons]
    by_cases hp : (p.1 == k) = true
    · rw [if_pos hp]
      have hk : p.1 = k := by simpa using hp
      have h1 : (((k, v) : String × α).1 == k') = false :=
        beq_eq_false_iff_ne.mpr (fun h => hne h.symm)
      have h2 : (p.1 == k') = false := by
        rw [hk]
        exact beq_eq_false_iff_ne.mpr (fun h => hne h.symm)
      rw [List.find?_cons_of_neg _ (by simp [h1]), List.find?_cons_of_neg _ (by simp [h2])]
      exact ih
    · rw [if_neg hp]
      by_cases hq : (p.1 == k') = true
      · rw [List.find?_cons, List.find?_cons, hq]
      · rw [List.find?_cons_of_neg _ (by simp [hq]), List.find?_cons_of_neg _ (by simp [hq])]
        exact ih

lemma find?_overwrite_self {α : Type} (k : String) (v : α) :
    ∀ d : Dict α, d.any (fun p => p.1 == k) = true →
      (d.map (fun p => if p.1 == k then (k, v) else p)).find? (fun p => p.1 == k) =
        some (k, v) := by
  intro d
  induction d with
  | nil =>
    intro h
    simp at h
  | cons p d ih =>
    intro h
    simp only [List.map_cons]
    by_cases hp : (p.1 == k) = true
    · rw [if_pos hp]
      exact List.find?_cons_of_pos _ (by simp)
    · rw [if_neg hp]
      rw [List.find?_cons_of_neg _ (by simp [hp])]
      apply ih
      rcases List.any_eq_true.mp h with ⟨x, hx, hxk⟩
      rcases List.mem_cons.mp hx with he | hm
      · subst he
        exact absurd hxk hp
      · exact List.any_eq_true.mpr ⟨x, hm, hxk⟩

lemma dictGet_insert_ne {α : Type} (d : Dict α) (k : String) (v : α) (k' : String)
    (hne : k' ≠ k) : dictGet (dictInsert d k v) k' = dictGet d k' := by
  unfold dictInsert
  by_cases hc : d.any (fun p => p.1 == k) = true
  · rw [if_pos hc]
    unfold dictGet
    rw [find?_overwrite_ne k k' v hne d]
  · rw [if_neg hc]
    unfold dictGet
    rw [List.find?_append]
    have h1 : ([(k, v)] : Dict α).find? (fun p => p.1 == k') = none := by
      rw [List.find?_cons_of_neg _
        (by simp [beq_eq_false_iff_ne.mpr (fun h : k = k' => hne h.symm)])]
      rfl
    rw [h1]
    cases d.find? (fun p => p.1 == k') <;> rfl

lemma dictGet_insert_self {α : Type} (d : Dict α) (k : String) (v : α) :
    (dictGet (dictInsert d k v) k).isSome = true := by
  unfold dictInsert
  by_cases hc : d.any (fun p => p.1 == k) = true
  · rw [if_pos hc]
    unfold dictGet
    rw [find?_overwrite_self k v d hc]
    rfl
  · rw [if_neg hc]
    unfold dictGet
    rw [List.find?_append]
    have h0 : d.find? (fun p => p.1 == k) = none := by
      rcases hf : d.find? (fun p => p.1 == k) with _ | pr
      · exact hf
      · exact absurd (List.any_eq_true.mpr
          ⟨pr, List.mem_of_find?_eq_some hf, List.find?_some hf⟩) hc
    rw [h0]
    simp [List.find?]

lemma dictGet_insert_isSome {α : Type} (d : Dict α) (k : String) (v : α) (k' : String)
    (h : (dictGet d k').isSome = true) :
    (dictGet (dictInsert d k v) k').isSome = true := by
  by_cases he : k' = k
  · subst he
    exact dictGet_insert_self d k' v
  · rw [dictGet_insert_ne d k v k' he]
    exact h

lemma dictGet_zipfold_not_mem {α : Type} (f : String) :
    ∀ (pairs : List (α × String)) (d : Dict α), f ∉ pairs.map (fun p => p.2) →
      dictGet (pairs.foldl (fun d p => dictInsert d p.2 p.1) d) f = dictGet d f := by
  intro pairs
  induction pairs with
  | nil =>
    intro d _
    rfl
  | cons p pairs ih =>
    intro d hf
    simp only [List.foldl_cons]
    rw [ih (dictInsert d p.2 p.1) (fun hm => hf (by simp [hm]))]
    exact dictGet_insert_ne d p.2 p.1 f (fun he => hf (by simp [he]))

lemma dictGet_zipfold_mem {α : Type} (f : String) :
    ∀ (pairs : List (α × String)) (d : Dict α),
      (f ∈ pairs.map (fun p => p.2) ∨ (dictGet d f).isSome = true) →
      (dictGet (pairs.foldl (fun d p => dictInsert d p.2 p.1) d) f).isSome = true := by
  intro pairs
  induction pairs with
  | nil =>
    intro d h
    rcases h with h | h
    · simp at h
    · exact h
  | cons p pairs ih =>
    intro d h
    simp only [List.foldl_cons]
    apply ih
    rcases h with h | h
    · rw [List.map_cons] at h
      rcases List.mem_cons.mp h with he | hm
      · right
        rw [he]
        exact dictGet_insert_self d p.2 p.1
      · left
        exact hm
    · right
      exact dictGet_insert_isSome d p.2 p.1 f h

lemma snd_zip_eq_take {α β : Type} :
    ∀ (l1 : List α) (l2 : List β), (l1.zip l2).map (fun p => p.2) = l2.take l1.length := by
  intro l1
  induction l1 with
  | nil =>
    intro l2
    simp
  | cons a l1 ih =>
    intro l2
    cases l2 with
    | nil => simp
    | cons b l2 => simp [ih]

lemma getElem_not_mem_take {α : Type} {l : List α} (hnd : l.Nodup) (n : Nat)
    (hn : n < l.length) : l[n] ∉ l.take n := by
  intro hmem
  rcases List.getElem_of_mem hmem with ⟨j, hj, hjv⟩
  have hjl : j < n := by
    simpa using lt_of_lt_of_le hj (by simp)
  have hjn : j < l.length := by omega
  have : (l.take n)[j] = l[j] := List.getElem_take _
  rw [this] at hjv
  have := (List.Nodup.getElem_inj_iff hnd).mp hjv
  omega

lemma assembleFormes_error {images : Dict String} {descriptions : Dict (List String)} :
    ∀ formes : List String, (∃ f ∈ formes, dictGet images f = none ∨
      dictGet descriptions f = none) →
      assembleFormes images descriptions formes = .error "KeyError" := by
  intro formes
  induction formes with
  | nil =>
    rintro ⟨f, hf, _⟩
    simp at hf
  | cons f fs ih =>
    rintro ⟨g, hg, hdis⟩
    rcases hi : dictGet images f with _ | img
    · simp [assembleFormes, hi]
    · rcases hd : dictGet descriptions f with _ | ds
      · simp [assembleFormes, hi, hd]
      · rcases List.mem_cons.mp hg with he | hm
        · subst he
          rcases hdis with h1 | h2
          · rw [h1] at hi
            cases hi
          · rw [h2] at hd
            cases hd
        · have htail := ih ⟨g, hm, hdis⟩
          simp [assembleFormes, hi, hd, htail]

lemma assembleFormes_ok {images : Dict String} {descriptions : Dict (List String)} :
    ∀ formes : List String, (∀ f ∈ formes, (dictGet images f).isSome = true ∧
      (dictGet descriptions f).isSome = true) →
      ∃ out, assembleFormes images descriptions formes = .ok out ∧
        out.length = formes.length := by
  intro formes
  induction formes with
  | nil =>
    intro _
    exact ⟨[], rfl, rfl⟩
  | cons f fs ih =>
    intro h
    obtain ⟨h1, h2⟩ := h f (by simp)
    rcases Option.isSome_iff_exists.mp h1 with ⟨img, himg⟩
    rcases Option.isSome_iff_exists.mp h2 with ⟨ds, hds⟩
    rcases ih (fun g hg => h g (by simp [hg])) with ⟨out, hout, hlen⟩
    refine ⟨(f, img, ds) :: out, ?_, by simp [hlen]⟩
    simp [assembleFormes, himg, hds, hout]

/-- C5 counterexample: with one declared form label but two image-extractor
entries (more entries than labels), assembly succeeds — the extra entry is
silently dropped by the positional zip — although the claim demands a
fatal extraction error on any mismatch. -/
theorem form_zip_truncation_counterexample :
    scrape_pokemon_formes ["Eevee"] ["img1", "img2"] [["d1", "d2"]] =
      .ok [("Eevee", "img1", ["d1", "d2"])] := rfl

/-- C5 (amended): when a form-keyed extractor yields fewer entries than
there are (distinct) form labels, assembly does fail — with a `KeyError`
raised when the missing label is looked up; but when an extractor yields
more entries than labels, the extras are silently dropped by the
positional zip and assembly succeeds with exactly one entry per label. -/
theorem form_zip_mismatch_behavior (formes : List String) (imagesTag : List String)
    (descriptionsTag : List (List String)) :
    (formes.Nodup → imagesTag.length < formes.length →
      scrape_pokemon_formes formes imagesTag descriptionsTag = .error "KeyError") ∧
    (formes.length ≤ imagesTag.length → formes.length ≤ descriptionsTag.length →
      ∃ out, scrape_pokemon_formes formes imagesTag descriptionsTag = .ok out ∧
        out.length = formes.length) := by
  constructor
  · intro hnd hlt
    apply assembleFormes_error
    refine ⟨formes[imagesTag.length], List.getElem_mem _, Or.inl ?_⟩
    rw [scrape_images, dictGet_zipfold_not_mem]
    · rfl
    · rw [snd_zip_eq_take]
      exact getElem_not_mem_take hnd imagesTag.length hlt
  · intro hi hd
    apply assembleFormes_ok
    intro f hf
    constructor
    · apply dictGet_zipfold_mem
      left
      rw [snd_zip_eq_take, List.take_of_length_le hi]
      exact hf
    · apply dictGet_zipfold_mem
      left
      rw [snd_zip_eq_take, List.take_of_length_le hd]
      exact hf

/-- Witness for C5 (amended): one form with a missing image entry fails
with `KeyError`; one form with surplus image entries succeeds. -/
theorem form_zip_mismatch_behavior_witness :
    scrape_pokemon_formes ["A", "B"] ["img1"] [["d1"], ["d2"]] = .error "KeyError" ∧
    (∃ out, scrape_pokemon_formes ["A"] ["img1", "img2"] [["d1"], ["d2"]] = .ok out ∧
      out.length = (["A"] : List String).length) :=
  ⟨(form_zip_mismatch_behavior ["A", "B"] ["img1"] [["d1"], ["d2"]]).1 (by simp)
     (by decide),
   (form_zip_mismatch_behavior ["A"] ["img1", "img2"] [["d1"], ["d2"]]).2 (by decide)
     (by decide)⟩

/-- C7 counterexample: a form whose table carries only the four base
attributes (no ability section) yields an extraction dictionary with no
`'abilities'` entry at all — the lookup gives `none`, not the empty list
`some (MiscVal.lst [])` the claim describes (the sentinel in
`abilitiesEntry` rules out an error as well). -/
theorem absent_ability_section_counterexample :
    abilitiesEntry (scrape_misc_info_form ["Height", "Weight", "Gender", "Category"]
      [⟨"3", []⟩, ⟨"4 lbs", []⟩, ⟨"Male", []⟩, ⟨"Mouse", []⟩]) = none := rfl

/-- C7 (amended): a form whose table has exactly the four base attributes
(no ability section) yields an extraction result in which the
`'abilities'` key is simply absent — not bound to an empty list, and not
an error — and the loader, which guards on key presence, contributes zero
`form_abilities` rows for a form without the key. -/
theorem absent_ability_section_no_rows (t0 t1 t2 t3 : String) (v0 v1 v2 v3 : ValueNode)
    (gs : List String) (hg : scrapeGenders v2 = .ok gs)
    (h0 : pyLower t0 ≠ "abilities") (h1 : pyLower t1 ≠ "abilities")
    (h2 : pyLower t2 ≠ "abilities") (h3 : pyLower t3 ≠ "abilities")
    (name : String) (fr : FormRec) (hab : fr.abilities = none) (s : DBState) :
    abilitiesEntry (scrape_misc_info_form [t0, t1, t2, t3] [v0, v1, v2, v3]) = none ∧
    form_ability_rows name fr = [] ∧
    insert_form_abilities_table s ⟨name, 1, [fr], []⟩ = .ok s := by
  refine ⟨?_, ?_, ?_⟩
  · have hrun : scrape_misc_info_form [t0, t1, t2, t3] [v0, v1, v2, v3] =
        .ok (dictInsert (dictInsert (dictInsert (dictInsert [] (pyLower t0) (.txt v0.text))
          (pyLower t1) (.txt v1.text)) (pyLower t2) (.lst gs)) (pyLower t3) (.txt v3.text)) := by
      simp [scrape_misc_info_form, hg]
    have habil : ∀ d : Dict MiscVal, abilitiesEntry (.ok d) = dictGet d "abilities" :=
      fun d => rfl
    rw [hrun, habil]
    rw [dictGet_insert_ne _ _ _ _ (Ne.symm h3), dictGet_insert_ne _ _ _ _ (Ne.symm h2),
        dictGet_insert_ne _ _ _ _ (Ne.symm h1), dictGet_insert_ne _ _ _ _ (Ne.symm h0)]
    rfl
  · simp [form_ability_rows, hab]
  · simp [insert_form_abilities_table, form_ability_rows, hab, insertNew, insertNewBy]

/-- Witness for C7 (amended) at a concrete four-attribute form. -/
theorem absent_ability_section_no_rows_witness :
    abilitiesEntry (scrape_misc_info_form ["Height", "Weight", "Gender", "Category"]
      [⟨"7", []⟩, ⟨"9 lbs", []⟩, ⟨"Female", []⟩, ⟨"Fox", []⟩]) = none ∧
    form_ability_rows "Eevee" ⟨"Eevee", ["d1", "d2"], ["Normal"], ["Male"], "", "", "", none⟩ = [] ∧
    insert_form_abilities_table emptyDB
      ⟨"Eevee", 1, [⟨"Eevee", ["d1", "d2"], ["Normal"], ["Male"], "", "", "", none⟩], []⟩ =
      .ok emptyDB :=
  absent_ability_section_no_rows "Height" "Weight" "Gender" "Category"
    ⟨"7", []⟩ ⟨"9 lbs", []⟩ ⟨"Female", []⟩ ⟨"Fox", []⟩ ["Female"] rfl
    (by decide) (by decide) (by decide) (by decide) "Eevee"
    ⟨"Eevee", ["d1", "d2"], ["Normal"], ["Male"], "", "", "", none⟩ rfl emptyDB

lemma classifyIcons_ok :
    ∀ l : List (List String), (∀ cls ∈ l, 2 ≤ cls.length) →
      classifyIcons l = .ok (l.map (fun cls =>
        if containsSub (cls.getD 1 "") "female" then "Female" else "Male")) := by
  intro l
  induction l with
  | nil =>
    intro _
    rfl
  | cons cl l ih =>
    intro h
    have hc := h cl (by simp)
    have h1 : 1 < cl.length := by omega
    have hg : cl[1]? = some cl[1] := List.getElem?_eq_getElem h1
    have hgd : cl.getD 1 "" = cl[1] := by
      rw [List.getD_eq_getElem?_getD, hg]
      rfl
    have hcl : classifyIcon cl = .ok (if containsSub (cl.getD 1 "") "female"
        then "Female" else "Male") := by
      simp [classifyIcon, hg, hgd]
    simp [classifyIcons, hcl, ih (fun x hx => h x (by simp [hx]))]

/-- C10: with icon markup present, each icon whose second style class
contains the substring `"female"` is classified `"Female"` and every
other icon `"Male"` (the default for any unrecognized class value); with
no icon markup, the result is the single-element list holding the
stripped text label.  The two encodings are never mixed: the output comes
wholly from the icons whenever any icon exists, and wholly from the text
otherwise. -/
theorem gender_icon_classification (node : ValueNode) :
    (node.icons = [] → scrapeGenders node = .ok [pyStrip node.text]) ∧
    (node.icons ≠ [] → (∀ cls ∈ node.icons, 2 ≤ cls.length) →
      scrapeGenders node = .ok (node.icons.map (fun cls =>
        if containsSub (cls.getD 1 "") "female" then "Female" else "Male"))) := by
  constructor
  · intro h
    simp [scrapeGenders, h]
  · intro hne hall
    unfold scrapeGenders
    rw [if_neg (by simpa using hne)]
    exact classifyIcons_ok node.icons hall

/-- Witness for C10: a female-classed icon beside a male-classed icon, and
a text-only node. -/
theorem gender_icon_classification_witness :
    scrapeGenders ⟨"", [["icon", "icon_female_symbol"], ["icon", "icon_male_symbol"]]⟩ =
      .ok ["Female", "Male"] ∧
    scrapeGenders ⟨"Unknown \n", []⟩ = .ok ["Unknown"] := by
  constructor
  · rw [(gender_icon_classification
      ⟨"", [["icon", "icon_female_symbol"], ["icon", "icon_male_symbol"]]⟩).2
      (by decide) (by decide)]
    rfl
  · rw [(gender_icon_classification ⟨"Unknown \n", []⟩).1 rfl]
    rfl

lemma except_ok_bind {α β γ : Type} (a : α) (f : α → Except γ β) :
    (Except.ok a >>= f) = f a := rfl

lemma except_error_bind {α β γ : Type} (e : γ) (f : α → Except γ β) :
    ((Except.error e : Except γ α) >>= f) = Except.error e := rfl

lemma foldlM_abilities {α : Type} (f : DBState → α → Except String DBState)
    (hf : ∀ s a s', f s a = .ok s' → s'.abilities = s.abilities) :
    ∀ (l : List α) (s s' : DBState), l.foldlM f s = .ok s' → s'.abilities = s.abilities := by
  intro l
  induction l with
  | nil =>
    intro s s' h
    cases h
    rfl
  | cons a l ih =>
    intro s s' h
    rw [List.foldlM_cons] at h
    rcases hfa : f s a with e | t
    · rw [hfa, except_error_bind] at h
      exact Except.noConfusion h
    · rw [hfa, except_ok_bind] at h
      rw [ih t s' h, hf s a t hfa]

lemma abilities_insert_pokemon {s s' : DBState} {p : PkmnRec}
    (h : insert_pokemon_table s p = .ok s') : s'.abilities = s.abilities := by
  unfold insert_pokemon_table at h
  rcases hI : insertNewBy (fun r : String × Int => r.1) s.pokemon [(p.name, p.number)]
    with e | t
  · simp only [hI] at h
    cases h
  · simp only [hI] at h
    cases h
    rfl

lemma abilities_insert_formes {s s' : DBState} {p : PkmnRec}
    (h : insert_formes_table s p = .ok s') : s'.abilities = s.abilities := by
  refine foldlM_abilities _ ?_ p.formes s s' h
  intro st fr st' hstep
  rcases hR : formeRow p.name fr with e | row
  · simp only [hR] at hstep
    cases hstep
  · simp only [hR] at hstep
    rcases hI : insertNewBy (fun r : FormeRow => (r.pokemon, r.form)) st.formes [row]
      with e | t
    · simp only [hI] at hstep
      cases hstep
    · simp only [hI] at hstep
      cases hstep
      rfl

lemma abilities_insert_form_descriptions {s s' : DBState} {p : PkmnRec}
    (h : insert_form_descriptions_table s p = .ok s') : s'.abilities = s.abilities := by
  refine foldlM_abilities _ ?_ p.formes s s' h
  intro st fr st' hstep
  rcases hR : descRowsForForm p.name fr with e | rows
  · simp only [hR] at hstep
    cases hstep
  · simp only [hR] at hstep
    rcases hI : insertNew st.form_descriptions rows with e | t
    · simp only [hI] at hstep
      cases hstep
    · simp only [hI] at hstep
      cases hstep
      rfl

lemma abilities_insert_form_abilities {s s' : DBState} {p : PkmnRec}
    (h : insert_form_abilities_table s p = .ok s') : s'.abilities = s.abilities := by
  unfold insert_form_abilities_table at h
  rcases hI : insertNew s.form_abilities (p.formes.flatMap (form_ability_rows p.name))
    with e | t
  · simp only [hI] at h
    cases h
  · simp only [hI] at h
    cases h
    rfl

lemma abilities_insert_evolutions {s s' : DBState} {p : PkmnRec}
    (h : insert_evolutions_table s p = .ok s') : s'.abilities = s.abilities := by
  unfold insert_evolutions_table at h
  by_cases hc : s.evolutions.any (fun r => r.1 == p.name || r.2 == p.name) = true
  · rw [if_pos hc] at h
    cases h
    rfl
  · rw [if_neg hc] at h
    rcases hN : normalizeEdges (mergeDicts p.evolutions) with e | es
    · simp only [hN] at h
      cases h
    · simp only [hN] at h
      rcases hI : insertNew s.evolutions es with e | t
      · simp only [hI] at h
        cases h
      · simp only [hI] at h
        cases h
        rfl

lemma abilities_insertPkmnAll {s s' : DBState} {p : PkmnRec}
    (h : insertPkmnAll s p = .ok s') : s'.abilities = s.abilities := by
  unfold insertPkmnAll at h
  rcases h1 : insert_pokemon_table s p with e | sa
  · rw [h1, except_error_bind] at h
    exact Except.noConfusion h
  · rw [h1, except_ok_bind] at h
    rcases h2 : insert_formes_table sa p with e | sb
    · rw [h2, except_error_bind] at h
      exact Except.noConfusion h
    · rw [h2, except_ok_bind] at h
      rcases h3 : insert_form_descriptions_table sb p with e | sc
      · rw [h3, except_error_bind] at h
        exact Except.noConfusion h
      · rw [h3, except_ok_bind] at h
        rcases h4 : insert_form_abilities_table sc p with e | sd
        · rw [h4, except_error_bind] at h
          exact Except.noConfusion h
        · rw [h4, except_ok_bind] at h
          rw [abilities_insert_evolutions h, abilities_insert_form_abilities h4,
              abilities_insert_form_descriptions h3, abilities_insert_formes h2,
              abilities_insert_pokemon h1]

lemma ability_pass_ok {abilities : List AbilityRec} {s0 s : DBState}
    (h : abilities.foldlM insert_abilities_table s0 = .ok s) :
    abilities = [] ∧ s = s0 := by
  cases abilities with
  | nil =>
    cases h
    exact ⟨rfl, rfl⟩
  | cons a as =>
    rw [List.foldlM_cons] at h
    have hba : insert_abilities_table s0 a = .error "InterfaceError" := rfl
    rw [hba, except_error_bind] at h
    exact Except.noConfusion h

/-- C8: `fill_sqlite_db` is exactly the ability pass followed by the
entity pass; in any successful run the full ability pass completed (with
an empty `form_abilities` table) before the entity pass started, and the
entity pass never touches the `abilities` table — so no form-ability
reference row can exist before every ability row has been loaded. -/
theorem loader_two_pass_order (abilities : List AbilityRec) (pkmns : List PkmnRec)
    (s2 : DBState) :
    (fill_sqlite_db abilities pkmns =
      (abilities.foldlM insert_abilities_table emptyDB) >>=
        (fun s1 => pkmns.foldlM insertPkmnAll s1)) ∧
    (fill_sqlite_db abilities pkmns = .ok s2 →
      ∃ s1, abilities.foldlM insert_abilities_table emptyDB = .ok s1 ∧
        s1.form_abilities = [] ∧
        pkmns.foldlM insertPkmnAll s1 = .ok s2 ∧
        s2.abilities = s1.abilities) := by
  constructor
  · rfl
  · intro h
    rcases hA : abilities.foldlM insert_abilities_table emptyDB with e | s1
    · rw [show fill_sqlite_db abilities pkmns =
          (abilities.foldlM insert_abilities_table emptyDB) >>=
            (fun s1 => pkmns.foldlM insertPkmnAll s1) from rfl, hA, except_error_bind] at h
      exact Except.noConfusion h
    · rw [show fill_sqlite_db abilities pkmns =
          (abilities.foldlM insert_abilities_table emptyDB) >>=
            (fun s1 => pkmns.foldlM insertPkmnAll s1) from rfl, hA, except_ok_bind] at h
      refine ⟨s1, rfl, ?_, h, ?_⟩
      · rcases ability_pass_ok hA with ⟨_, hs⟩
        rw [hs]
        rfl
      · exact foldlM_abilities insertPkmnAll
          (fun s a s' hstep => abilities_insertPkmnAll hstep) pkmns s1 s2 h

/-- Witness for C8: an empty ability collection followed by one pokemon
record, computing the final database state. -/
theorem loader_two_pass_order_witness :
    ∃ s1, (([] : List AbilityRec).foldlM insert_abilities_table emptyDB) = .ok s1 ∧
      s1.form_abilities = [] ∧
      ([(⟨"Eevee", 133, [⟨"Eevee", ["d1", "d2"], ["Normal"], ["Male", "Female"],
          "1", "14.3 lbs", "Evolution", none⟩], []⟩ : PkmnRec)].foldlM insertPkmnAll s1) =
        .ok ⟨[("Eevee", 133)],
             [⟨"Eevee", "Eevee", "1", "14.3 lbs", "Evolution", "Normal", none, 1, 1⟩],
             [("Eevee", "Eevee", "d1"), ("Eevee", "Eevee", "d2")], [], [], []⟩ ∧
      (⟨[("Eevee", 133)],
        [⟨"Eevee", "Eevee", "1", "14.3 lbs", "Evolution", "Normal", none, 1, 1⟩],
        [("Eevee", "Eevee", "d1"), ("Eevee", "Eevee", "d2")], [], [], []⟩ : DBState).abilities =
        s1.abilities :=
  (loader_two_pass_order []
    [⟨"Eevee", 133, [⟨"Eevee", ["d1", "d2"], ["Normal"], ["Male", "Female"],
        "1", "14.3 lbs", "Evolution", none⟩], []⟩]
    ⟨[("Eevee", 133)],
     [⟨"Eevee", "Eevee", "1", "14.3 lbs", "Evolution", "Normal", none, 1, 1⟩],
     [("Eevee", "Eevee", "d1"), ("Eevee", "Eevee", "d2")], [], [], []⟩).2 (by rfl)

/-- C9: a URL whose shape fails the fixed-path check makes scraper
construction raise `ValueError` regardless of — and hence before — any
fetch outcome, while a URL passing the check raises no validation error:
the result is exactly whatever the fetch produces. -/
theorem url_validation_guard (url : String) (fetch : Unit → Except String String) :
    (pyStartsWith url pokedexPathStart = false →
      pokedexScraperInit url fetch = .error "ValueError") ∧
    (pyStartsWith url pokedexPathStart = true →
      pokedexScraperInit url fetch = fetch ()) := by
  constructor
  · intro h
    simp [pokedexScraperInit, h]
  · intro h
    simp [pokedexScraperInit, h]

/-- Witness for C9: a non-matching and a matching URL. -/
theorem url_validation_guard_witness :
    pokedexScraperInit "https://example.com/foo" (fun _ => .ok "page") =
      .error "ValueError" ∧
    pokedexScraperInit "https://www.pokemon.com/us/pokedex/bulbasaur"
      (fun _ => .ok "page") = .ok "page" :=
  ⟨(url_validation_guard "https://example.com/foo" (fun _ => .ok "page")).1 (by decide),
   (url_validation_guard "https://www.pokemon.com/us/pokedex/bulbasaur"
     (fun _ => .ok "page")).2 (by decide)⟩

end Pokedex
